import Mathlib

/-!
Verification of the dispatch-and-caching core of the `st-edgedb-cloud-conn`
repository: the query classifier, the (output format × cardinality) function
selector, the TTL cache around the non-mutating execution path, the
per-window / cumulative call accounting, and the HTTP health probe.

The embedding follows `src/ecc/data_structures.py`, `src/ecc/utils.py` and
`src/ecc/connection.py`.  Query texts are embedded as `List Char`; Python's
`str.casefold` is modelled as character-wise ASCII lowercasing (the three
mutation keywords are plain ASCII).  Timestamps and `ttl` are modelled as
integers (only ordering and differences matter to the cache contract).
-/

namespace ECC

/-- `ecc/data_structures.py`: `class RespJson(Enum)` with members NO, YES. -/
inductive RespJson
  | NO
  | YES
  deriving DecidableEq, Fintype

/-- `ecc/data_structures.py`: `class RespConstraint(Enum)` with members
FREE, NO_MORE_THAN_ONE, EXACTLY_ONE. -/
inductive RespConstraint
  | FREE
  | NO_MORE_THAN_ONE
  | EXACTLY_ONE
  deriving DecidableEq, Fintype

/-- `ecc/utils.py`: `match_func_name(jsonify, required_single)`, the exhaustive
match over the 6 combinations returning the client method name. -/
def match_func_name : RespJson → RespConstraint → String
  | .NO, .FREE => "query"
  | .NO, .NO_MORE_THAN_ONE => "query_single"
  | .NO, .EXACTLY_ONE => "query_required_single"
  | .YES, .FREE => "query_json"
  | .YES, .NO_MORE_THAN_ONE => "query_single_json"
  | .YES, .EXACTLY_ONE => "query_required_single_json"

/-- The full cross product of the two closed enumerations. -/
def allFormatCardPairs : List (RespJson × RespConstraint) :=
  [(.NO, .FREE), (.NO, .NO_MORE_THAN_ONE), (.NO, .EXACTLY_ONE),
   (.YES, .FREE), (.YES, .NO_MORE_THAN_ONE), (.YES, .EXACTLY_ONE)]

/-- C3: `match_func_name` is total over the 6-element cross product (every
pair of the two enumerations is in the enumerated domain, which has exactly
6 elements) and the six selected call variants are pairwise distinct. -/
theorem match_func_name_total_and_distinct :
    (∀ j : RespJson, ∀ r : RespConstraint, (j, r) ∈ allFormatCardPairs) ∧
    allFormatCardPairs.length = 6 ∧
    (allFormatCardPairs.map fun p => match_func_name p.1 p.2).Nodup := by
  decide

/-! ## Query classification (`EdgeDBCloudConn._is_qry_immutable`) -/

/-- Boolean test that `n` is a prefix of `h`, used to model Python's
substring operator `in`. -/
def startsWithSub : List Char → List Char → Bool
  | [], _ => true
  | _ :: _, [] => false
  | a :: as, b :: bs => a == b && startsWithSub as bs

/-- Boolean substring containment, modelling Python's `kw in s`. -/
def containsSub (n : List Char) : List Char → Bool
  | [] => n.isEmpty
  | c :: rest => startsWithSub n (c :: rest) || containsSub n rest

theorem startsWithSub_iff (n h : List Char) : startsWithSub n h = true ↔ n <+: h := by
  induction n generalizing h with
  | nil =>
    simp only [startsWithSub, true_iff]
    exact ⟨h, rfl⟩
  | cons a as ih =>
    cases h with
    | nil =>
      simp only [startsWithSub, Bool.false_eq_true, false_iff]
      rintro ⟨t, ht⟩
      exact List.cons_ne_nil _ _ ht
    | cons b bs =>
      simp only [startsWithSub, Bool.and_eq_true, beq_iff_eq, ih]
      constructor
      · rintro ⟨rfl, t, rfl⟩
        exact ⟨t, rfl⟩
      · rintro ⟨t, ht⟩
        injection ht with h1 h2
        exact ⟨h1, t, h2⟩

theorem containsSub_iff (n h : List Char) : containsSub n h = true ↔ n <:+: h := by
  induction h with
  | nil =>
    simp only [containsSub, List.isEmpty_iff]
    constructor
    · rintro rfl
      exact ⟨[], [], rfl⟩
    · rintro ⟨s, t, ht⟩
      rcases List.append_eq_nil.mp ht with ⟨hs, ht2⟩
      exact (List.append_eq_nil.mp hs).2
  | cons c rest ih =>
    simp only [containsSub, Bool.or_eq_true, startsWithSub_iff, ih]
    constructor
    · rintro (⟨t, ht⟩ | ⟨s, t, ht⟩)
      · exact ⟨[], t, ht⟩
      · exact ⟨c :: s, t, by simpa using ht⟩
    · rintro ⟨s, t, ht⟩
      cases s with
      | nil => exact Or.inl ⟨t, by simpa using ht⟩
      | cons c2 s2 =>
        injection ht with h1 h2
        exact Or.inr ⟨s2, t, h2⟩

/-- `EdgeDBCloudConn._mutated_kws = ('insert', 'update', 'delete')`. -/
def mutated_kws : List (List Char) :=
  ["insert".toList, "update".toList, "delete".toList]

/-- Python `str.casefold`, modelled as ASCII lowercasing of each character. -/
def casefold (q : List Char) : List Char := q.map Char.toLower

/-- `EdgeDBCloudConn._is_qry_immutable`:
`all(mutated_kw not in qry.casefold() for mutated_kw in self._mutated_kws)`. -/
def is_qry_immutable (qry : List Char) : Bool :=
  mutated_kws.all fun kw => ! containsSub kw (casefold qry)

/-- The spec-level classification outcome. -/
inductive QueryKind
  | Mutating
  | NonMutating
  deriving DecidableEq

/-- The classification performed by `EdgeDBCloudConn.query`: a query is
Mutating exactly when `_is_qry_immutable` answers false. -/
def classify (qry : List Char) : QueryKind :=
  if is_qry_immutable qry then .NonMutating else .Mutating

/-- C2: classification marks a query Mutating iff some keyword of
{"insert","update","delete"} occurs as a substring of the casefolded text
(case-insensitive containment, anywhere in the text); otherwise the query is
NonMutating.  `classify` is a total function of the text alone. -/
theorem classify_mutating_iff (q : List Char) :
    (classify q = .Mutating ↔ ∃ kw ∈ mutated_kws, kw <:+: casefold q) ∧
    (classify q = .NonMutating ↔ ¬ ∃ kw ∈ mutated_kws, kw <:+: casefold q) := by
  have hbase : is_qry_immutable q = false ↔ ∃ kw ∈ mutated_kws, kw <:+: casefold q := by
    simp only [is_qry_immutable, ← containsSub_iff]
    simp [List.all_eq_true]
  constructor
  · rw [← hbase]
    unfold classify
    cases h : is_qry_immutable q <;> simp [h]
  · rw [← hbase]
    unfold classify
    cases h : is_qry_immutable q <;> simp [h]

/-- Witness for C2 at a concrete text: "DELETE Person" is classified
Mutating, and the keyword containment holds there. -/
theorem classify_mutating_iff_witness :
    classify "DELETE Person".toList = .Mutating ↔
      ∃ kw ∈ mutated_kws, kw <:+: casefold "DELETE Person".toList :=
  (classify_mutating_iff "DELETE Person".toList).1

/-! ## Connection state and query dispatch (`EdgeDBCloudConn`) -/

/-- A Python argument value; `unhashable` models values on which `hash`
raises, so that no cache key can be derived from them. -/
inductive PyVal
  | hashable (n : ℕ)
  | unhashable (n : ℕ)
  deriving DecidableEq

def PyVal.isHashable : PyVal → Bool
  | .hashable _ => true
  | .unhashable _ => false

/-- A query request: the arguments of `EdgeDBCloudConn.query` — text,
positional args, output-format flag, cardinality constraint, named args. -/
structure QueryReq where
  qry : List Char
  args : List PyVal
  jsonify : RespJson
  required_single : RespConstraint
  kwargs : List (String × PyVal)
  deriving DecidableEq

/-- The mutable state of an `EdgeDBCloudConn`: the per-window counter
`_dbcalls`, the cumulative counter `_total_dbcalls`, the `_start` timestamp,
and the contents of the TTL cache attached to `_imquery` (key ↦ cached value
and store time).  Parametric in the opaque remote result type `ρ`. -/
structure ConnState (ρ : Type) where
  dbcalls : ℕ
  total_dbcalls : ℕ
  start : ℤ
  cache : QueryReq → Option (ρ × ℤ)

/-- `EdgeDBCloudConn._query`: logs the request, increments `_dbcalls`,
resolves the client call variant via `match_func_name` and performs the
remote call — modelled by the oracle `remote`. -/
def _query (remote : QueryReq → ρ) (s : ConnState ρ) (req : QueryReq) :
    ConnState ρ × ρ :=
  ({ s with dbcalls := s.dbcalls + 1 }, remote req)

/-- `EdgeDBCloudConn._imquery` as written in the class body (before any
wrapping by `__init__`): a plain delegate of `_query`. -/
def _imquery (remote : QueryReq → ρ) (s : ConnState ρ) (req : QueryReq) :
    ConnState ρ × ρ :=
  _query remote s req

/-- `EdgeDBCloudConn._mquery`: a plain delegate of `_query`. -/
def _mquery (remote : QueryReq → ρ) (s : ConnState ρ) (req : QueryReq) :
    ConnState ρ × ρ :=
  _query remote s req

/-- A cache key is derivable iff every positional and named argument value is
hashable (text, format flag and cardinality are always hashable). -/
def can_key (req : QueryReq) : Bool :=
  req.args.all PyVal.isHashable && req.kwargs.all fun kv => kv.2.isHashable

/-- The error raised when a request's content is not key-derivable. -/
inductive CacheErr
  | cacheKeyError
  deriving DecidableEq

/-- Modelled from the spec: the TTL cache wrapper that `__init__` installs
around `_imquery` when `ttl > 0` (`alru_cache(ttl=ttl)` from the external
`async_lru` dependency, whose code is not part of this repository).  Per
spec §4.3: a request whose content is not key-derivable raises
CacheKeyError before any execution; a valid entry (age < ttl) is returned
with zero remote calls; otherwise the request executes through `_query` and
the result is stored under its key with the current timestamp (stale
entries are lazily replaced). -/
def imquery_cached (ttl : ℤ) (remote : QueryReq → ρ) (now : ℤ)
    (s : ConnState ρ) (req : QueryReq) : Except CacheErr (ConnState ρ × ρ) :=
  if can_key req then
    match s.cache req with
    | some (v, t) =>
      if now - t < ttl then
        .ok (s, v)
      else
        let p := _query remote s req
        .ok ({ p.1 with
               cache := fun k => if k = req then some (p.2, now) else p.1.cache k },
             p.2)
    | none =>
      let p := _query remote s req
      .ok ({ p.1 with
             cache := fun k => if k = req then some (p.2, now) else p.1.cache k },
           p.2)
  else
    .error .cacheKeyError

/-- `EdgeDBCloudConn.query`: dispatches on `_is_qry_immutable`; immutable
queries go through `_imquery` (wrapped by the TTL cache exactly when
`ttl > 0`), mutating queries go through `_mquery`. -/
def query (ttl : ℤ) (remote : QueryReq → ρ) (now : ℤ)
    (s : ConnState ρ) (req : QueryReq) : Except CacheErr (ConnState ρ × ρ) :=
  if is_qry_immutable req.qry then
    if 0 < ttl then imquery_cached ttl remote now s req
    else .ok (_imquery remote s req)
  else
    .ok (_mquery remote s req)

/-- Issuing the same request repeatedly, at the given sequence of times,
collecting the results. -/
def runSeq (ttl : ℤ) (remote : QueryReq → ρ) :
    List ℤ → ConnState ρ → QueryReq → Except CacheErr (ConnState ρ × List ρ)
  | [], s, _ => .ok (s, [])
  | t :: ts, s, req =>
    match query ttl remote t s req with
    | .error e => .error e
    | .ok (s1, v) =>
      match runSeq ttl remote ts s1 req with
      | .error e => .error e
      | .ok (s2, vs) => .ok (s2, v :: vs)

theorem classify_eq_NonMutating_iff (q : List Char) :
    classify q = .NonMutating ↔ is_qry_immutable q = true := by
  unfold classify
  cases h : is_qry_immutable q <;> simp

theorem classify_eq_Mutating_iff (q : List Char) :
    classify q = .Mutating ↔ is_qry_immutable q = false := by
  unfold classify
  cases h : is_qry_immutable q <;> simp

/-- C5: with `ttl ≤ 0` caching is disabled — issuing the same NonMutating
query N times sequentially performs exactly N remote calls (the per-window
counter grows by N), each returning the remote result, and the final state
differs from the initial one only in that counter. -/
theorem ttl_zero_no_caching (ttl : ℤ) {ρ : Type} (remote : QueryReq → ρ)
    (req : QueryReq) (s : ConnState ρ) (ts : List ℤ)
    (httl : ttl ≤ 0) (himm : classify req.qry = .NonMutating) :
    runSeq ttl remote ts s req =
      .ok ({ s with dbcalls := s.dbcalls + ts.length },
           List.replicate ts.length (remote req)) := by
  have himm2 : is_qry_immutable req.qry = true :=
    (classify_eq_NonMutating_iff req.qry).mp himm
  induction ts generalizing s with
  | nil => simp [runSeq]
  | cons t ts ih =>
    have hn : s.dbcalls + 1 + ts.length = s.dbcalls + (ts.length + 1) := by omega
    simp only [runSeq, query, himm2, if_true, if_neg (not_lt.mpr httl),
      _imquery, _query]
    rw [ih]
    simp [List.replicate_succ, hn]

/-- Witness for C5 at N = 2 concrete repetitions. -/
theorem ttl_zero_no_caching_witness :
    runSeq 0 (fun _ => (42 : ℕ))
        [5, 6]
        { dbcalls := 0, total_dbcalls := 0, start := 0, cache := fun _ => none }
        { qry := "select Movie".toList, args := [], jsonify := .NO,
          required_single := .FREE, kwargs := [] } =
      .ok ({ dbcalls := 0 + [(5 : ℤ), 6].length, total_dbcalls := 0, start := 0,
             cache := fun _ => none },
           List.replicate [(5 : ℤ), 6].length 42) :=
  ttl_zero_no_caching 0 (fun _ => (42 : ℕ))
    { qry := "select Movie".toList, args := [], jsonify := .NO,
      required_single := .FREE, kwargs := [] }
    { dbcalls := 0, total_dbcalls := 0, start := 0, cache := fun _ => none }
    [5, 6] (by decide) (by decide)

/-- C6: Mutating queries always bypass the cache — for every ttl (including
positive ones), N repetitions of the same Mutating query perform exactly N
remote calls, and the cache and cumulative counter are untouched. -/
theorem mutating_always_n_calls (ttl : ℤ) {ρ : Type} (remote : QueryReq → ρ)
    (req : QueryReq) (s : ConnState ρ) (ts : List ℤ)
    (hmut : classify req.qry = .Mutating) :
    runSeq ttl remote ts s req =
      .ok ({ s with dbcalls := s.dbcalls + ts.length },
           List.replicate ts.length (remote req)) := by
  have hmut2 : is_qry_immutable req.qry = false :=
    (classify_eq_Mutating_iff req.qry).mp hmut
  induction ts generalizing s with
  | nil => simp [runSeq]
  | cons t ts ih =>
    have hn : s.dbcalls + 1 + ts.length = s.dbcalls + (ts.length + 1) := by omega
    simp only [runSeq, query, hmut2, Bool.false_eq_true, if_false,
      _mquery, _query]
    rw [ih]
    simp [List.replicate_succ, hn]

/-- Witness for C6 at ttl = 999 > 0 and N = 3 repetitions of an
update query. -/
theorem mutating_always_n_calls_witness :
    runSeq 999 (fun _ => (42 : ℕ))
        [5, 6, 7]
        { dbcalls := 0, total_dbcalls := 0, start := 0, cache := fun _ => none }
        { qry := "update Movie filter .id = 1".toList, args := [], jsonify := .NO,
          required_single := .FREE, kwargs := [] } =
      .ok ({ dbcalls := 0 + [(5 : ℤ), 6, 7].length, total_dbcalls := 0, start := 0,
             cache := fun _ => none },
           List.replicate [(5 : ℤ), 6, 7].length 42) :=
  mutating_always_n_calls 999 (fun _ => (42 : ℕ))
    { qry := "update Movie filter .id = 1".toList, args := [], jsonify := .NO,
      required_single := .FREE, kwargs := [] }
    { dbcalls := 0, total_dbcalls := 0, start := 0, cache := fun _ => none }
    [5, 6, 7] (by decide)

/-- C10: when `ttl ≤ 0` the two dispatch targets `_imquery` and `_mquery`
are behaviourally identical delegates of the same underlying `_query`:
for every request — whatever the classifier says about its text — `query`
produces exactly the result and the single-call state transition of
`_query`. -/
theorem ttl_nonpos_paths_identical (ttl : ℤ) {ρ : Type} (remote : QueryReq → ρ)
    (now : ℤ) (s : ConnState ρ) (req : QueryReq) (httl : ttl ≤ 0) :
    query ttl remote now s req = .ok (_query remote s req) ∧
    _imquery remote s req = _query remote s req ∧
    _mquery remote s req = _query remote s req ∧
    (_query remote s req).1.dbcalls = s.dbcalls + 1 := by
  refine ⟨?_, rfl, rfl, rfl⟩
  unfold query
  rw [if_neg (not_lt.mpr httl)]
  by_cases h : is_qry_immutable req.qry <;> simp [h, _imquery, _mquery]

/-- Witness for C10 at ttl = 0 on a concrete request. -/
theorem ttl_nonpos_paths_identical_witness :
    query 0 (fun _ => (42 : ℕ)) 3
        { dbcalls := 0, total_dbcalls := 0, start := 0, cache := fun _ => none }
        { qry := "select Movie".toList, args := [], jsonify := .NO,
          required_single := .FREE, kwargs := [] } =
      .ok (_query (fun _ => (42 : ℕ))
        { dbcalls := 0, total_dbcalls := 0, start := 0, cache := fun _ => none }
        { qry := "select Movie".toList, args := [], jsonify := .NO,
          required_single := .FREE, kwargs := [] }) ∧
    _imquery (fun _ => (42 : ℕ))
        { dbcalls := 0, total_dbcalls := 0, start := 0, cache := fun _ => none }
        { qry := "select Movie".toList, args := [], jsonify := .NO,
          required_single := .FREE, kwargs := [] } =
      _query (fun _ => (42 : ℕ))
        { dbcalls := 0, total_dbcalls := 0, start := 0, cache := fun _ => none }
        { qry := "select Movie".toList, args := [], jsonify := .NO,
          required_single := .FREE, kwargs := [] } ∧
    _mquery (fun _ => (42 : ℕ))
        { dbcalls := 0, total_dbcalls := 0, start := 0, cache := fun _ => none }
        { qry := "select Movie".toList, args := [], jsonify := .NO,
          required_single := .FREE, kwargs := [] } =
      _query (fun _ => (42 : ℕ))
        { dbcalls := 0, total_dbcalls := 0, start := 0, cache := fun _ => none }
        { qry := "select Movie".toList, args := [], jsonify := .NO,
          required_single := .FREE, kwargs := [] } ∧
    (_query (fun _ => (42 : ℕ))
        { dbcalls := 0, total_dbcalls := 0, start := 0, cache := fun _ => none }
        { qry := "select Movie".toList, args := [], jsonify := .NO,
          required_single := .FREE, kwargs := [] }).1.dbcalls =
      ({ dbcalls := 0, total_dbcalls := 0, start := 0,
         cache := fun _ => none } : ConnState ℕ).dbcalls + 1 :=
  ttl_nonpos_paths_identical 0 (fun _ => (42 : ℕ)) 3
    { dbcalls := 0, total_dbcalls := 0, start := 0, cache := fun _ => none }
    { qry := "select Movie".toList, args := [], jsonify := .NO,
      required_single := .FREE, kwargs := [] }
    (by decide)

/-! ## Session-scope exit (`EdgeDBCloudConn.__aexit__`) -/

/-- `EdgeDBCloudConn.__aexit__`: unconditionally folds `_dbcalls` into
`_total_dbcalls`, resets `_dbcalls` and `_start`, and — since the Python
method returns `None` — lets any propagating exception continue unchanged
(it is returned alongside the new state, never swallowed). -/
def aexit {ρ ε : Type} (exc : Option ε) (s : ConnState ρ) :
    ConnState ρ × Option ε :=
  ({ s with total_dbcalls := s.total_dbcalls + s.dbcalls, dbcalls := 0,
            start := 0 },
   exc)

/-- Issuing a list of requests through the real execution path `_query`
(each one an actual remote call), keeping only the state. -/
def issueCalls (remote : QueryReq → ρ) (reqs : List QueryReq)
    (s : ConnState ρ) : ConnState ρ :=
  reqs.foldl (fun st r => (_query remote st r).1) s

theorem issueCalls_counters (remote : QueryReq → ρ) (reqs : List QueryReq)
    (s : ConnState ρ) :
    (issueCalls remote reqs s).dbcalls = s.dbcalls + reqs.length ∧
    (issueCalls remote reqs s).total_dbcalls = s.total_dbcalls := by
  induction reqs generalizing s with
  | nil => simp [issueCalls]
  | cons r reqs ih =>
    simp only [issueCalls, List.foldl_cons, _query] at *
    have := ih { s with dbcalls := s.dbcalls + 1 }
    simpa [Nat.add_assoc, Nat.add_comm, Nat.add_left_comm] using this

/-- C7: on every session-scope exit — with or without a propagating
exception — the per-window count k is folded into the cumulative total,
the per-window counter is reset to zero, and the exception (if any) is
passed through unchanged; a subsequent window issuing m real calls and
exiting brings the cumulative total to k + m. -/
theorem aexit_accounting {ρ ε : Type} (exc exc2 : Option ε)
    (remote : QueryReq → ρ) (s : ConnState ρ) (k m : ℕ)
    (reqs : List QueryReq)
    (hk : s.dbcalls = k) (htot : s.total_dbcalls = 0)
    (hm : reqs.length = m) :
    (aexit exc s).2 = exc ∧
    (aexit exc s).1.total_dbcalls = k ∧
    (aexit exc s).1.dbcalls = 0 ∧
    (aexit exc2 (issueCalls remote reqs (aexit exc s).1)).1.total_dbcalls
      = k + m ∧
    (aexit exc2 (issueCalls remote reqs (aexit exc s).1)).2 = exc2 := by
  obtain ⟨hdb, htot2⟩ :=
    issueCalls_counters remote reqs (aexit exc s).1
  refine ⟨rfl, by simp [aexit, hk, htot], rfl, ?_, rfl⟩
  simp only [aexit] at hdb htot2 ⊢
  simp only [hdb, htot2]
  simp [hk, htot, hm]

/-- Witness for C7: a window with k = 2 calls, an exception propagating at
exit, then a second window of m = 3 calls. -/
theorem aexit_accounting_witness :
    (aexit (some 7)
        ({ dbcalls := 2, total_dbcalls := 0, start := 5,
           cache := fun _ => none } : ConnState ℕ)).2 = some 7 ∧
    (aexit (some 7)
        ({ dbcalls := 2, total_dbcalls := 0, start := 5,
           cache := fun _ => none } : ConnState ℕ)).1.total_dbcalls = 2 ∧
    (aexit (some 7)
        ({ dbcalls := 2, total_dbcalls := 0, start := 5,
           cache := fun _ => none } : ConnState ℕ)).1.dbcalls = 0 ∧
    (aexit (none : Option ℕ)
        (issueCalls (fun _ => (42 : ℕ))
          (List.replicate 3
            { qry := "select Movie".toList, args := [], jsonify := .NO,
              required_single := .FREE, kwargs := [] })
          (aexit (some 7)
            ({ dbcalls := 2, total_dbcalls := 0, start := 5,
               cache := fun _ => none } : ConnState ℕ)).1)).1.total_dbcalls
      = 2 + 3 ∧
    (aexit (none : Option ℕ)
        (issueCalls (fun _ => (42 : ℕ))
          (List.replicate 3
            { qry := "select Movie".toList, args := [], jsonify := .NO,
              required_single := .FREE, kwargs := [] })
          (aexit (some 7)
            ({ dbcalls := 2, total_dbcalls := 0, start := 5,
               cache := fun _ => none } : ConnState ℕ)).1)).2 = none :=
  aexit_accounting (some 7) none (fun _ => (42 : ℕ))
    { dbcalls := 2, total_dbcalls := 0, start := 5, cache := fun _ => none }
    2 3
    (List.replicate 3
      { qry := "select Movie".toList, args := [], jsonify := .NO,
        required_single := .FREE, kwargs := [] })
    rfl rfl rfl

/-! ## Cache-key failure (C9) -/

/-- C9: for a NonMutating request with non-hashable argument content under
`ttl > 0`, `query` reports `CacheKeyError` to its caller — the request is
not executed uncached (no `.ok` result, no state transition, no remote
call). -/
theorem cachekey_error_propagates (ttl : ℤ) {ρ : Type}
    (remote : QueryReq → ρ) (now : ℤ) (s : ConnState ρ) (req : QueryReq)
    (httl : 0 < ttl) (himm : classify req.qry = .NonMutating)
    (hkey : can_key req = false) :
    query ttl remote now s req = .error .cacheKeyError := by
  unfold query
  rw [if_pos ((classify_eq_NonMutating_iff req.qry).mp himm), if_pos httl]
  unfold imquery_cached
  simp [hkey]

/-- Witness for C9: a select query carrying an unhashable argument under
ttl = 999. -/
theorem cachekey_error_propagates_witness :
    query 999 (fun _ => (42 : ℕ)) 0
        { dbcalls := 0, total_dbcalls := 0, start := 0, cache := fun _ => none }
        { qry := "select Movie".toList, args := [PyVal.unhashable 0],
          jsonify := .NO, required_single := .FREE, kwargs := [] } =
      .error .cacheKeyError :=
  cachekey_error_propagates 999 (fun _ => (42 : ℕ)) 0
    { dbcalls := 0, total_dbcalls := 0, start := 0, cache := fun _ => none }
    { qry := "select Movie".toList, args := [PyVal.unhashable 0],
      jsonify := .NO, required_single := .FREE, kwargs := [] }
    (by decide) (by decide) (by decide)

/-! ## TTL caching of NonMutating queries (C4) -/

theorem runSeq_all_hits (T : ℤ) {ρ : Type} (remote : QueryReq → ρ)
    (req : QueryReq) (v : ρ) (t0 : ℤ) (s : ConnState ρ) (ts : List ℤ)
    (himm : is_qry_immutable req.qry = true) (hT : 0 < T)
    (hkey : can_key req = true) (hc : s.cache req = some (v, t0))
    (hts : ∀ t ∈ ts, t - t0 < T) :
    runSeq T remote ts s req = .ok (s, List.replicate ts.length v) := by
  induction ts with
  | nil => simp [runSeq]
  | cons t ts ih =>
    have hwin : t - t0 < T := hts t (by simp)
    simp only [runSeq, query, himm, if_true, if_pos hT]
    unfold imquery_cached
    rw [if_pos hkey, hc]
    simp only [if_pos hwin]
    rw [ih fun u hu => hts u (by simp [hu])]
    simp [List.replicate_succ]

/-- C4: with `ttl = T > 0`, issuing the same NonMutating key-derivable query
N ≥ 1 times, starting from a state with no cache entry for it, with every
repetition within T of the first, performs exactly one remote call: the
per-window counter grows by exactly 1, every repetition returns the value
of that single execution, and the value sits in the cache stamped with the
first call's time. -/
theorem cached_query_single_call (T : ℤ) {ρ : Type} (remote : QueryReq → ρ)
    (req : QueryReq) (s : ConnState ρ) (t0 : ℤ) (ts : List ℤ)
    (hT : 0 < T) (himm : classify req.qry = .NonMutating)
    (hkey : can_key req = true) (hmiss : s.cache req = none)
    (hts : ∀ t ∈ ts, t0 ≤ t ∧ t - t0 < T) :
    ∃ s2 : ConnState ρ,
      runSeq T remote (t0 :: ts) s req =
        .ok (s2, List.replicate (ts.length + 1) (remote req)) ∧
      s2.dbcalls = s.dbcalls + 1 ∧
      s2.total_dbcalls = s.total_dbcalls ∧
      s2.cache req = some (remote req, t0) := by
  have himm2 : is_qry_immutable req.qry = true :=
    (classify_eq_NonMutating_iff req.qry).mp himm
  refine ⟨{ dbcalls := s.dbcalls + 1, total_dbcalls := s.total_dbcalls,
            start := s.start,
            cache := fun k => if k = req then some (remote req, t0)
                              else s.cache k },
          ?_, rfl, rfl, by simp⟩
  simp only [runSeq, query, himm2, if_true, if_pos hT]
  unfold imquery_cached
  rw [if_pos hkey, hmiss]
  simp only [_query]
  rw [runSeq_all_hits T remote req (remote req) t0 _ ts himm2 hT hkey
    (by simp) (fun u hu => (hts u hu).2)]
  simp [List.replicate_succ]

/-- Witness for C4: three repetitions at times 0, 1, 2 under ttl = 999. -/
theorem cached_query_single_call_witness :
    ∃ s2 : ConnState ℕ,
      runSeq 999 (fun _ => (42 : ℕ)) ((0 : ℤ) :: [1, 2])
          { dbcalls := 0, total_dbcalls := 0, start := 0,
            cache := fun _ => none }
          { qry := "select Movie".toList, args := [PyVal.hashable 1],
            jsonify := .NO, required_single := .FREE, kwargs := [] } =
        .ok (s2, List.replicate ([(1 : ℤ), 2].length + 1) 42) ∧
      s2.dbcalls = 0 + 1 ∧
      s2.total_dbcalls = 0 ∧
      s2.cache
          { qry := "select Movie".toList, args := [PyVal.hashable 1],
            jsonify := .NO, required_single := .FREE, kwargs := [] } =
        some (42, 0) := by
  have h := cached_query_single_call 999 (fun _ => (42 : ℕ))
    { qry := "select Movie".toList, args := [PyVal.hashable 1],
      jsonify := .NO, required_single := .FREE, kwargs := [] }
    { dbcalls := 0, total_dbcalls := 0, start := 0, cache := fun _ => none }
    0 [1, 2] (by decide) (by decide) (by decide) rfl (by decide)
  exact h

/-! ## Health probe (`EdgeDBCloudConn.is_healthy`) -/

/-- Outcome of the bounded HTTP GET: either a transport-level failure
(`httpx.HTTPError`: connection refused, DNS failure, TLS failure, timeout)
or a response with a status code. -/
inductive HttpOutcome
  | transportError
  | status (code : ℕ)
  deriving DecidableEq

/-- `EdgeDBCloudConn._healthy_check_url`:
`https://{host}:{port}/server/status/alive`. -/
def healthy_check_url (host : List Char) (port : ℕ) : List Char :=
  "https://".toList ++ host ++ ":".toList ++ (toString port).toList ++
    "/server/status/alive".toList

/-- `EdgeDBCloudConn.is_healthy`: probes `_healthy_check_url` (modelled by
the oracle `probe`), answers `status_code == 200`, and converts any
`httpx.HTTPError` into `false` via the `try/except` block. -/
def is_healthy (probe : List Char → HttpOutcome) (host : List Char)
    (port : ℕ) : Bool :=
  match probe (healthy_check_url host port) with
  | .transportError => false
  | .status code => code == 200

/-- C8: the health check is a total Boolean function (it never raises): it
answers `true` exactly when the GET probe of
`https://{host}:{port}/server/status/alive` returns HTTP status 200, and
`false` on every transport-level failure and every non-200 status. -/
theorem is_healthy_iff_status_200 (probe : List Char → HttpOutcome)
    (host : List Char) (port : ℕ) :
    (is_healthy probe host port = true ↔
        probe (healthy_check_url host port) = .status 200) ∧
    (probe (healthy_check_url host port) = .transportError →
        is_healthy probe host port = false) ∧
    (∀ code : ℕ, code ≠ 200 →
        probe (healthy_check_url host port) = .status code →
        is_healthy probe host port = false) := by
  refine ⟨?_, ?_, ?_⟩
  · unfold is_healthy
    cases h : probe (healthy_check_url host port) with
    | transportError => simp [h]
    | status code =>
      simp only [beq_iff_eq]
      constructor
      · rintro rfl
        rfl
      · intro h2
        injection h2
  · intro h
    simp [is_healthy, h]
  · intro code hne h
    simp [is_healthy, h, hne]

/-- Witness for C8: a probe that answers 404 yields `false`, via the
third conjunct of the theorem at a concrete host and port. -/
theorem is_healthy_iff_status_200_witness :
    is_healthy (fun _ => .status 404) "myhost".toList 5656 = false :=
  (is_healthy_iff_status_200 (fun _ => .status 404)
      "myhost".toList 5656).2.2 404 (by decide) rfl

/-! ## Single-flight coalescing under concurrency (C1) -/

/-- Phase of one concurrent requester for a fixed cache key. -/
inductive TaskPhase (ρ : Type)
  | idle
  | executing
  | waiting
  | done (r : ρ)
  deriving DecidableEq

/-- State of the cache slot for the key: empty, holding the in-flight
execution, or holding its finished result. -/
inductive Slot (ρ : Type)
  | absent
  | pending
  | filled (r : ρ)
  deriving DecidableEq

/-- Global state of K concurrent identical NonMutating requests on one
cache key: the slot, the number of remote executions started, and each
requester's phase. -/
structure FlightState (K : ℕ) (ρ : Type) where
  slot : Slot ρ
  calls : ℕ
  phase : Fin K → TaskPhase ρ

/-- Scheduler events under single-threaded cooperative concurrency:
`start i` runs requester i up to its first suspension point, `finish i`
completes the remote execution held by i, `resolve i` wakes a waiter once
the slot is filled. -/
inductive FlightEv (K : ℕ)
  | start (i : Fin K)
  | finish (i : Fin K)
  | resolve (i : Fin K)

def setPhase (s : FlightState K ρ) (i : Fin K) (p : TaskPhase ρ) :
    FlightState K ρ :=
  { s with phase := fun j => if j = i then p else s.phase j }

/-- Modelled from the spec: one scheduler step of the single-flight
mechanism of the TTL cache wrapper (`alru_cache`, an external dependency
whose code is not part of this repository).  Per spec §4.3 and §5, the
lookup-and-claim of the slot is atomic (no suspension point between the
cache read and the store of the in-flight execution): a requester that
starts on an absent slot claims it and begins the one remote execution
(`R` is its eventual outcome); a requester that starts on a pending slot
awaits that same execution; a requester that starts on a filled slot takes
the stored result immediately. -/
def flightStep (R : ρ) (s : FlightState K ρ) : FlightEv K → FlightState K ρ
  | .start i =>
    match s.phase i, s.slot with
    | .idle, .absent =>
      { setPhase s i .executing with slot := .pending, calls := s.calls + 1 }
    | .idle, .pending => setPhase s i .waiting
    | .idle, .filled r => setPhase s i (.done r)
    | _, _ => s
  | .finish i =>
    match s.phase i with
    | .executing => { setPhase s i (.done R) with slot := .filled R }
    | _ => s
  | .resolve i =>
    match s.phase i, s.slot with
    | .waiting, .filled r => setPhase s i (.done r)
    | _, _ => s

/-- Running a whole schedule of events. -/
def flightRun (R : ρ) (s : FlightState K ρ) (evs : List (FlightEv K)) :
    FlightState K ρ :=
  evs.foldl (flightStep R) s

/-- The initial state: no cache entry for the key, no remote call yet,
all K requesters about to arrive. -/
def flightInit (K : ℕ) (ρ : Type) : FlightState K ρ :=
  { slot := .absent, calls := 0, phase := fun _ => .idle }

/-- Invariant tying the slot to the call counter and the phases. -/
def FlightInv (R : ρ) (s : FlightState K ρ) : Prop :=
  match s.slot with
  | .absent => s.calls = 0 ∧ ∀ i, s.phase i = .idle
  | .pending => s.calls = 1 ∧ ∀ i r, s.phase i ≠ .done r
  | .filled r =>
      s.calls = 1 ∧ r = R ∧ ∀ i r2, s.phase i = .done r2 → r2 = R

theorem flightInv_init (K : ℕ) (ρ : Type) (R : ρ) :
    FlightInv R (flightInit K ρ) := by
  exact ⟨rfl, fun _ => rfl⟩

theorem setPhase_phase (s : FlightState K ρ) (i : Fin K) (p : TaskPhase ρ)
    (j : Fin K) :
    (setPhase s i p).phase j = if j = i then p else s.phase j := rfl

theorem setPhase_slot (s : FlightState K ρ) (i : Fin K) (p : TaskPhase ρ) :
    (setPhase s i p).slot = s.slot := rfl

theorem setPhase_calls (s : FlightState K ρ) (i : Fin K) (p : TaskPhase ρ) :
    (setPhase s i p).calls = s.calls := rfl

theorem flightInv_step (R : ρ) (s : FlightState K ρ) (e : FlightEv K)
    (h : FlightInv R s) : FlightInv R (flightStep R s e) := by
  cases e with
  | start i =>
    rcases hp : s.phase i with _ | _ | _ | r0
    · rcases hs : s.slot with _ | _ | r1
      · -- idle requester, absent slot: claim the slot and execute
        simp only [FlightInv, hs] at h
        obtain ⟨h1, h2⟩ := h
        simp only [flightStep, hp, hs, FlightInv, setPhase_phase, h1]
        refine ⟨by trivial, ?_⟩
        intro j r
        by_cases hji : j = i
        · simp [hji]
        · simp only [hji, if_false]
          simp [h2 j]
      · -- idle requester, pending slot: join as a waiter
        simp only [FlightInv, hs] at h
        obtain ⟨h1, h2⟩ := h
        simp only [flightStep, hp, hs, FlightInv, setPhase_slot,
          setPhase_calls, setPhase_phase]
        refine ⟨h1, ?_⟩
        intro j r
        by_cases hji : j = i
        · simp [hji]
        · simp only [hji, if_false]
          exact h2 j r
      · -- idle requester, filled slot: take the stored result
        simp only [FlightInv, hs] at h
        obtain ⟨h1, hR, h2⟩ := h
        simp only [flightStep, hp, hs, FlightInv, setPhase_slot,
          setPhase_calls, setPhase_phase]
        refine ⟨h1, hR, ?_⟩
        intro j r2
        by_cases hji : j = i
        · simp only [hji, if_true]
          rintro h3
          injection h3 with h4
          rw [← h4]
          exact hR
        · simp only [hji, if_false]
          exact h2 j r2
    · rcases hs : s.slot with _ | _ | r1 <;> simp only [flightStep, hp, hs] <;>
        simpa only [FlightInv, hs] using h
    · rcases hs : s.slot with _ | _ | r1 <;> simp only [flightStep, hp, hs] <;>
        simpa only [FlightInv, hs] using h
    · rcases hs : s.slot with _ | _ | r1 <;> simp only [flightStep, hp, hs] <;>
        simpa only [FlightInv, hs] using h
  | finish i =>
    rcases hp : s.phase i with _ | _ | _ | r0
    · simpa only [flightStep, hp] using h
    · -- the executor completes: fill the slot with its outcome R
      rcases hs : s.slot with _ | _ | r1
      · simp only [FlightInv, hs] at h
        have h3 := h.2 i
        rw [hp] at h3
        cases h3
      · simp only [FlightInv, hs] at h
        obtain ⟨h1, h2⟩ := h
        simp only [flightStep, hp, FlightInv, setPhase_calls, setPhase_phase]
        refine ⟨h1, by trivial, ?_⟩
        intro j r2
        by_cases hji : j = i
        · simp only [hji, if_true]
          intro h3
          injection h3 with h4
          exact h4.symm
        · simp only [hji, if_false]
          intro h3
          exact absurd h3 (h2 j r2)
      · simp only [FlightInv, hs] at h
        obtain ⟨h1, hR, h2⟩ := h
        simp only [flightStep, hp, FlightInv, setPhase_calls, setPhase_phase]
        refine ⟨h1, by trivial, ?_⟩
        intro j r2
        by_cases hji : j = i
        · simp only [hji, if_true]
          intro h3
          injection h3 with h4
          exact h4.symm
        · simp only [hji, if_false]
          exact h2 j r2
    · simpa only [flightStep, hp] using h
    · simpa only [flightStep, hp] using h
  | resolve i =>
    rcases hp : s.phase i with _ | _ | _ | r0
    · rcases hs : s.slot with _ | _ | r1 <;> simp only [flightStep, hp, hs] <;>
        simpa only [FlightInv, hs] using h
    · rcases hs : s.slot with _ | _ | r1 <;> simp only [flightStep, hp, hs] <;>
        simpa only [FlightInv, hs] using h
    · rcases hs : s.slot with _ | _ | r1
      · simpa only [flightStep, hp, hs, FlightInv, hs] using h
      · simpa only [flightStep, hp, hs, FlightInv, hs] using h
      · -- a waiter wakes on the filled slot and takes its result
        simp only [FlightInv, hs] at h
        obtain ⟨h1, hR, h2⟩ := h
        simp only [flightStep, hp, hs, FlightInv, setPhase_slot,
          setPhase_calls, setPhase_phase, hs]
        refine ⟨h1, hR, ?_⟩
        intro j r2
        by_cases hji : j = i
        · simp only [hji, if_true]
          rintro h3
          injection h3 with h4
          rw [← h4]
          exact hR
        · simp only [hji, if_false]
          exact h2 j r2
    · rcases hs : s.slot with _ | _ | r1 <;> simp only [flightStep, hp, hs] <;>
        simpa only [FlightInv, hs] using h

theorem flightInv_run (R : ρ) (s : FlightState K ρ)
    (evs : List (FlightEv K)) (h : FlightInv R s) :
    FlightInv R (flightRun R s evs) := by
  induction evs generalizing s with
  | nil => exact h
  | cons e evs ih =>
    exact ih (flightStep R s e) (flightInv_step R s e h)

/-- C1: single-flight — starting from no cache entry, whatever order a
schedule interleaves K ≥ 2 concurrent identical NonMutating requesters in,
if the schedule drives every requester to completion then exactly one
remote execution was started, and every requester ends holding that single
execution's outcome `R`. -/
theorem single_flight (K : ℕ) (ρ : Type) (R : ρ)
    (evs : List (FlightEv K)) (hK : 2 ≤ K)
    (hdone : ∀ i : Fin K, ∃ r : ρ,
      (flightRun R (flightInit K ρ) evs).phase i = .done r) :
    (flightRun R (flightInit K ρ) evs).calls = 1 ∧
    ∀ i : Fin K, (flightRun R (flightInit K ρ) evs).phase i = .done R := by
  have hinv := flightInv_run R (flightInit K ρ) evs (flightInv_init K ρ R)
  set s := flightRun R (flightInit K ρ) evs with hs
  have i0 : Fin K := ⟨0, by omega⟩
  obtain ⟨r0, hr0⟩ := hdone i0
  rcases hslot : s.slot with _ | _ | r1 <;>
    simp only [FlightInv, hslot] at hinv
  · exact absurd hr0 (by simp [hinv.2 i0])
  · exact absurd hr0 (hinv.2 i0 r0)
  · refine ⟨hinv.1, ?_⟩
    intro i
    obtain ⟨ri, hri⟩ := hdone i
    have := hinv.2.2 i ri hri
    rw [← this]
    exact hri

/-- A concrete schedule for the witness: requester 0 arrives first and
executes; requester 1 arrives while the execution is in flight, waits, and
is woken after the fill. -/
def demoSchedule : List (FlightEv 2) :=
  [.start ⟨0, by omega⟩, .start ⟨1, by omega⟩,
   .finish ⟨0, by omega⟩, .resolve ⟨1, by omega⟩]

/-- Witness for C1 at K = 2 on the concrete schedule. -/
theorem single_flight_witness :
    (flightRun 42 (flightInit 2 ℕ) demoSchedule).calls = 1 ∧
    ∀ i : Fin 2,
      (flightRun 42 (flightInit 2 ℕ) demoSchedule).phase i = .done 42 :=
  single_flight 2 ℕ 42 demoSchedule (by omega)
    (fun i => ⟨42, by fin_cases i <;> rfl⟩)

end ECC
